import Mathlib

set_option maxHeartbeats 1000000

namespace Hivemind

/-! Shallow embedding of the hivemind chess engine search core.

Sources embedded from the repository: src/board.rs, src/search.rs,
src/search/alpha_beta.rs, src/search/sorting.rs.

External collaborators (the shakmaty chess library, the NNUE network) are
modelled as oracle structures: their functions are arbitrary parameters, and
everything proved below holds for every choice of oracle.  Repository files
that are not under src/ (types.rs, transposition.rs, history.rs, qsearch.rs,
defs.rs, nnue.rs) are modelled from the spec; each such definition carries a
doc comment starting with "Modelled from the spec". -/

/-- Piece colors (shakmaty `Color`, an external collaborator type). -/
inductive Color
  | white
  | black
deriving DecidableEq, Repr

/-- The opposite color (shakmaty `Color::other`). -/
def Color.other : Color → Color
  | .white => .black
  | .black => .white

/-- Piece roles (shakmaty `Role`; its discriminants are 1..6, Pawn..King). -/
inductive Role
  | pawn
  | knight
  | bishop
  | rook
  | queen
  | king
deriving DecidableEq, Repr

/-- The order of shakmaty `Role::ALL`, as iterated by
`least_valuable_attacker` in src/search/sorting.rs. -/
def Role.all : List Role := [.pawn, .knight, .bishop, .rook, .queen, .king]

/-- Board squares 0..63 (shakmaty `Square`, A1 = 0 .. H8 = 63). -/
abbrev Square := Fin 64

/-- Move variants (shakmaty `Move`): Normal, EnPassant, Castle, Put.
The Rust field `from` is rendered `from_sq` because `from` is a reserved
word in Lean. -/
inductive Move
  | normal (role : Role) (from_sq : Square) (capture : Option Role) (to_sq : Square)
      (promotion : Option Role)
  | enPassant (from_sq : Square) (to_sq : Square)
  | castle (king : Square) (rook : Square)
  | put (role : Role) (to_sq : Square)
deriving DecidableEq, Repr

/-- shakmaty `Move::from()`: the origin square; `None` only for `Put` drops
(for `Castle` it is the king's square). -/
def Move.fromSq : Move → Option Square
  | .normal _ f _ _ _ => some f
  | .enPassant f _ => some f
  | .castle k _ => some k
  | .put _ _ => none

/-- shakmaty `Move::to()`: the destination square (for `Castle`, shakmaty
reports the rook's square, the king-takes-rook convention). -/
def Move.toSq : Move → Square
  | .normal _ _ _ t _ => t
  | .enPassant _ t => t
  | .castle _ r => r
  | .put _ t => t

/-- shakmaty `Move::role()`: the moving piece (King for castling). -/
def Move.role : Move → Role
  | .normal r _ _ _ _ => r
  | .enPassant _ _ => .pawn
  | .castle _ _ => .king
  | .put r _ => r

/-- shakmaty `Move::capture()`: the captured role; `Some(Pawn)` for en
passant, `None` for castling and drops. -/
def Move.capture : Move → Option Role
  | .normal _ _ c _ _ => c
  | .enPassant _ _ => some .pawn
  | .castle _ _ => none
  | .put _ _ => none

/-- shakmaty `Move::is_capture()`. -/
def Move.is_capture (m : Move) : Bool := m.capture.isSome

/-- shakmaty `Move::is_promotion()`. -/
def Move.is_promotion : Move → Bool
  | .normal _ _ _ _ p => p.isSome
  | _ => false

/-- shakmaty `Move::is_castle()`. -/
def Move.is_castle : Move → Bool
  | .castle _ _ => true
  | _ => false

/-- shakmaty `Move::is_en_passant()`. -/
def Move.is_en_passant : Move → Bool
  | .enPassant _ _ => true
  | _ => false

/-- `matches!(mv, Move::Put { .. })` from src/search/sorting.rs. -/
def Move.isPut : Move → Bool
  | .put _ _ => true
  | _ => false

/-! ## Static exchange evaluation (src/search/sorting.rs lines 10-96) -/

/-- `SEE_VALUES` from src/search/sorting.rs line 16, indexed by the shakmaty
role discriminant: `[0, 100, 400, 400, 650, 1200, 0]`. -/
def seeValue : Role → Int
  | .pawn => 100
  | .knight => 400
  | .bishop => 400
  | .rook => 650
  | .queen => 1200
  | .king => 0

/-- `move_value` from src/search/sorting.rs lines 24-34. -/
def moveValue (mv : Move) : Int :=
  if mv.is_en_passant then seeValue .pawn
  else
    match mv.capture with
    | some capture => seeValue capture
    | none => 0

/-- Oracle for the parts of a shakmaty position that `see` consumes:
the board's bitboards (modelled as finsets of squares), the attack
oracles (`Board::attacks_to`, `shakmaty::attacks::bishop_attacks`,
`rook_attacks`), and the side to move.  These belong to the external
chess library and are arbitrary here. -/
structure SeeCtx where
  byRole : Role → Finset Square
  byColor : Color → Finset Square
  occupied : Finset Square
  attacksTo : Square → Color → Finset Square → Finset Square
  bishopAttacks : Square → Finset Square → Finset Square
  rookAttacks : Square → Finset Square → Finset Square
  turn : Color

/-- The least set bit of a bitboard, as an optional square. -/
def leastBit (s : Finset Square) : Option Square :=
  if h : s.Nonempty then some (s.min' h) else none

/-- `Bitboard::isolate_first`: the bitboard holding only the least set bit
(empty if the input is empty). -/
def isolateFirst (s : Finset Square) : Finset Square :=
  match leastBit s with
  | some m => {m}
  | none => ∅

/-- Bitboard xor (`^=` in the SEE loop), on the finset model. -/
def xorBB (a b : Finset Square) : Finset Square := (a \ b) ∪ (b \ a)

/-- `least_valuable_attacker` from src/search/sorting.rs lines 18-22. -/
def least_valuable_attacker (ctx : SeeCtx) (attackers : Finset Square) : Option Role :=
  Role.all.find? (fun r => decide ((attackers ∩ ctx.byRole r).Nonempty))

/-- The swap-off loop of `see` (src/search/sorting.rs lines 67-93), with an
explicit fuel.  Each iteration removes one occupied square, so
`see` passes `occupied.card + 1` fuel, which never runs out; the fuel-0
result coincides with the loop's attacker-exhaustion exit.  The Rust
`.expect("Expected at least 1 attacker")` (unreachable on well-formed
boards, where every piece has a role) is modelled by the same exit. -/
def seeLoop (ctx : SeeCtx) (target : Square) :
    Nat → Finset Square → Finset Square → Color → Int → Bool
  | 0, _, _, stm, _ => decide (stm ≠ ctx.turn)
  | fuel + 1, occupied, attackers, stm, balance =>
    let our_attackers := attackers ∩ ctx.byColor stm
    if our_attackers = ∅ then decide (stm ≠ ctx.turn)
    else
      match least_valuable_attacker ctx our_attackers with
      | none => decide (stm ≠ ctx.turn)
      | some attacker =>
        if attacker = .king ∧ (attackers ∩ ctx.byColor stm.other).Nonempty then
          decide (stm ≠ ctx.turn)
        else
          let occupied2 := xorBB occupied (isolateFirst (ctx.byRole attacker ∩ our_attackers))
          let stm2 := stm.other
          let balance2 := -balance - 1 - seeValue attacker
          if 0 ≤ balance2 then decide (stm2 ≠ ctx.turn)
          else
            let diagonal := ctx.byRole .bishop ∪ ctx.byRole .queen
            let orthogonal := ctx.byRole .rook ∪ ctx.byRole .queen
            let attackers2 :=
              if attacker = .pawn ∨ attacker = .bishop ∨ attacker = .queen then
                attackers ∪ (ctx.bishopAttacks target occupied2 ∩ diagonal)
              else attackers
            let attackers3 :=
              if attacker = .rook ∨ attacker = .queen then
                attackers2 ∪ (ctx.rookAttacks target occupied2 ∩ orthogonal)
              else attackers2
            seeLoop ctx target fuel occupied2 (attackers3 ∩ occupied2) stm2 balance2

/-- `see` from src/search/sorting.rs lines 36-96.  The `mv.from()?` is the
single fallible step, mirrored by the `Option` match. -/
def see (ctx : SeeCtx) (mv : Move) (threshold : Int) : Option Bool :=
  if mv.isPut then some true
  else if mv.is_promotion || mv.is_castle then some true
  else
    let balance0 := moveValue mv - threshold
    if balance0 < 0 then some false
    else
      let balance1 := balance0 - seeValue mv.role
      if 0 ≤ balance1 then some true
      else
        match mv.fromSq with
        | none => none
        | some f =>
          let occupied := insert mv.toSq (ctx.occupied.erase f)
          let stm := ctx.turn.other
          let attackers :=
            (ctx.attacksTo mv.toSq .white occupied ∪ ctx.attacksTo mv.toSq .black occupied) ∩
              occupied
          some (seeLoop ctx mv.toSq (occupied.card + 1) occupied attackers stm balance1)

/-! ## Move ordering (src/search/sorting.rs lines 10-14 and 98-152) -/

def BAD_CAPTURE : Int := -200000000
def GOOD_CAPTURE : Int := 200000000
def KILLER_BONUS : Int := 100000000
def HASH_MOVE : Int := 300000000
def DROP_MOVE : Int := 100000

/-- Modelled from the spec: src/search/history.rs is not under src/, so the
history tables are modelled per section 4.6 and section 3 of the spec: a main
(quiet) history indexed by side-to-move, from-square and to-square, and a
capture history keyed by (moving piece, to-square, captured piece). -/
structure HistoryTables where
  main : Color → Square → Square → Int
  capture : Role → Square → Role → Int

/-- Modelled from the spec: `History::get_main`, keyed by (side to move,
from, to); `None` exactly when the move has no from-square. -/
def HistoryTables.get_main (h : HistoryTables) (c : Color) (m : Move) : Option Int :=
  m.fromSq.map (fun f => h.main c f m.toSq)

/-- Modelled from the spec: `History::get_capture`, keyed by (piece, to,
captured); `None` exactly when the move captures nothing.  The color
argument mirrors the call `get_capture(refs.board.turn(), m)`; the spec
keys the capture table without it. -/
def HistoryTables.get_capture (h : HistoryTables) (_c : Color) (m : Move) : Option Int :=
  m.capture.map (fun cap => h.capture m.role m.toSq cap)

/-- The per-node inputs of the `sort_by_key` closure in `sort_moves`
(src/search/sorting.rs lines 105-149): the position handle for `see`,
`refs.board.turn()`, `refs.search_info.killers[ply]`, the history tables
and the `ordering_main()` parameter. -/
structure SortCtx where
  seeCtx : SeeCtx
  turn : Color
  killer : Option Move
  history : HistoryTables
  ordering_main : Int

/-- The key assigned by the `sort_by_key` closure in `sort_moves`
(src/search/sorting.rs lines 105-149).  The first binding mirrors the
source's dead comparison `if let Some(mv) = &pv_move { if mv == m {} }`,
whose body is empty.  The two `.expect` calls are modelled with `getD`;
they can never see `none` on the moves this closure receives (the `see`
call is on a non-Put move, the capture-history lookup on a capture). -/
def sortKey (ctx : SortCtx) (pv_move tt_move : Option Move) (m : Move) : Int :=
  let _pv_compared := pv_move.map (fun mv => mv = m)
  if tt_move = some m then HASH_MOVE
  else if m.is_capture then
    let captured : Int :=
      match m.capture with
      | some role => seeValue role
      | none => 0
    let see_value := (see ctx.seeCtx m 0).getD false
    let history := (ctx.history.get_capture ctx.turn m).getD 0
    let mvv := 32 * captured
    if see_value = false then BAD_CAPTURE + history + mvv
    else GOOD_CAPTURE + history + mvv
  else if ctx.killer = some m then KILLER_BONUS
  else if m.isPut then DROP_MOVE
  else ctx.ordering_main * ((ctx.history.get_main ctx.turn m).getD 0)

/-- Insertion of one element into a key-sorted list; together with
`sortByKey` this is the unique stable ascending sort by key, the
behaviour of Rust's stable `slice::sort_by_key`. -/
def insortByKey {α : Type} (key : α → Int) (a : α) : List α → List α
  | [] => [a]
  | b :: l => if key a ≤ key b then a :: b :: l else b :: insortByKey key a l

/-- Stable ascending insertion sort by key (Rust `sort_by_key`). -/
def sortByKey {α : Type} (key : α → Int) : List α → List α
  | [] => []
  | a :: l => insortByKey key a (sortByKey key l)

/-- `Search::sort_moves` from src/search/sorting.rs lines 99-151:
`moves.sort_by_key(..)` (stable ascending) followed by `moves.reverse()`. -/
def sort_moves (ctx : SortCtx) (pv_move tt_move : Option Move) (moves : List Move) :
    List Move :=
  (sortByKey (sortKey ctx pv_move tt_move) moves).reverse

/-! ## Score space and parameters (src/types.rs is not under src/) -/

/-- Modelled from the spec: `MAX_PLY` from the missing types.rs; section 3
fixes only its role (`MATE_BOUND = MATE - MAX_PLY`), a concrete example
value is used. -/
def MAX_PLY : Nat := 128

namespace Score

/-- Modelled from the spec: `Score::MATE` (section 3, example value). -/
def MATE : Int := 30000

/-- Modelled from the spec: `Score::INFINITY` (section 3, example value). -/
def INFINITY : Int := 32000

/-- Modelled from the spec: `Score::DRAW = 0` (section 3). -/
def DRAW : Int := 0

/-- Modelled from the spec: `MATE_BOUND = MATE - MAX_PLY` (section 3). -/
def MATE_BOUND : Int := MATE - MAX_PLY

/-- Modelled from the spec: `mated_in(ply) = -MATE + ply` (section 3). -/
def mated_in (ply : Nat) : Int := -MATE + ply

/-- Modelled from the spec: `mate_in(ply) = MATE - ply` (section 3). -/
def mate_in (ply : Nat) : Int := MATE - ply

end Score

/-- Modelled from the spec: the named tunables of src/types/parameters.rs
(missing from src/), section 2 item 9 and the identifiers used in
src/search/alpha_beta.rs and src/search/sorting.rs.  The spec gives no
values, so they are arbitrary fields here. -/
structure Params where
  iir_depth : Int
  rfp_depth : Int
  rfp_margin : Int
  razoring_depth : Int
  razoring_margin : Int
  razoring_fixed_margin : Int
  fp_depth : Int
  fp_margin : Int
  fp_fixed_margin : Int
  see_depth : Int
  see_quiet_margin : Int
  see_noisy_margin : Int
  ordering_main : Int
  lmr_moves_played : Nat
  lmr_depth : Int
  max_history : Int
  history_cap : Int

/-! ## NNUE accumulator (src/nnue.rs is not under src/) -/

/-- Modelled from the spec: one NNUE accumulator; section 9 describes the
evaluator as a per-ply activation stack with `activate`/`deactivate`
feature deltas, so an accumulator is modelled as its list of feature
deltas. -/
structure Accum where
  feats : List (Color × Role × Square)
deriving DecidableEq

/-- Modelled from the spec: the NNUE network state, a current accumulator
plus the per-ply stack (section 9: `push()` before a non-in-place make,
`pop()` on undo). -/
structure NNUE where
  top : Accum
  stack : List Accum
deriving DecidableEq

/-- Replace the current accumulator, keeping the stack. -/
def NNUE.modTop (f : Accum → Accum) (n : NNUE) : NNUE :=
  { top := f n.top, stack := n.stack }

/-- Modelled from the spec: `Network::push` duplicates the current
accumulator onto the stack. -/
def NNUE.push (n : NNUE) : NNUE :=
  { top := n.top, stack := n.top :: n.stack }

/-- Modelled from the spec: `Network::pop` restores the accumulator saved
by the matching `push`.  Popping an empty stack is a Rust panic, modelled
as the identity (unreachable after a `push`). -/
def NNUE.pop (n : NNUE) : NNUE :=
  match n.stack with
  | t :: r => { top := t, stack := r }
  | [] => n

/-- Modelled from the spec: `Network::activate(color, role, square)` adds
one feature delta to the current accumulator. -/
def NNUE.activate (c : Color) (r : Role) (s : Square) (n : NNUE) : NNUE :=
  NNUE.modTop (fun a => ⟨(c, r, s) :: a.feats⟩) n

/-- Modelled from the spec: `Network::deactivate` removes one feature delta
from the current accumulator. -/
def NNUE.deactivate (c : Color) (r : Role) (s : Square) (n : NNUE) : NNUE :=
  NNUE.modTop (fun a => ⟨a.feats.erase (c, r, s)⟩) n

/-- Modelled from the spec: `Network::commit` finalizes the pending deltas;
in this model deltas apply immediately, so commit keeps the state. -/
def NNUE.commit (n : NNUE) : NNUE := n

/-! ## The board (src/board.rs) -/

/-- Oracle for the external shakmaty position type and the NNUE scalar
evaluation: `P` is the opaque `Chess`/`Crazyhouse` position, and every
operation src/board.rs delegates to shakmaty or to the network is an
arbitrary function here. -/
structure Oracle (P : Type) where
  legal_moves : P → List Move
  capture_moves : P → List Move
  is_check : P → Bool
  turn : P → Color
  play_unchecked : P → Move → P
  swap_turn : P → Option P
  zobrist : P → Nat
  role_at : P → Square → Option Role
  seeC : P → SeeCtx
  nnue_eval : Accum → Color → Int

/-- `Board` from src/board.rs lines 11-20: the position, the network, the
two parallel undo stacks, the repetition hash history, the board-local ply
and the eval stack (an `[i32; MAX_PLY]` array, modelled as a function). -/
structure Board (P : Type) where
  pos : P
  nnue : NNUE
  state_stack : List P
  move_stack : List (Option Move)
  history : List Nat
  ply : Nat
  eval_stack : Nat → Int

/-- `Board::get_hash` (src/board.rs lines 73-75). -/
def Board.get_hash {P : Type} (o : Oracle P) (b : Board P) : Nat :=
  o.zobrist b.pos

/-- `Board::add_piece` (src/board.rs lines 250-252): only the accumulator
changes. -/
def Board.add_piece {P : Type} (b : Board P) (c : Color) (r : Role) (s : Square) : Board P :=
  { b with nnue := b.nnue.activate c r s }

/-- `Board::remove_piece` (src/board.rs lines 254-256). -/
def Board.remove_piece {P : Type} (b : Board P) (c : Color) (r : Role) (s : Square) : Board P :=
  { b with nnue := b.nnue.deactivate c r s }

/-- The en passant capture target `to.xor(Square::A2)` from src/board.rs
line 137 (`A2` has index 8; xor with 8 keeps the square on the board). -/
def epTarget (t : Square) : Square :=
  ⟨(t.val ^^^ 8) % 64, Nat.mod_lt _ (by norm_num)⟩

/-- The per-variant feature updates of `Board::make_move` (src/board.rs
lines 113-176).  The `match mv` body of the source only calls
`add_piece`/`remove_piece`, which touch nothing but the accumulator, so it
is factored here as the accumulator update; `pos` is the pre-move position
(used by the en passant branch through `role_at`). -/
def applyMoveFeatures {P : Type} (o : Oracle P) (pos : P) (stm : Color) (mv : Move)
    (n : NNUE) : NNUE :=
  match mv with
  | .normal role f cap t promo =>
    let n := n.deactivate stm role f
    let n :=
      match cap with
      | some capture => n.deactivate stm.other capture t
      | none => n
    match promo with
    | some promotion => n.activate stm promotion t
    | none => n.activate stm role t
  | .enPassant f t =>
    let n := n.deactivate stm .pawn f
    let n := n.activate stm .pawn t
    let target := epTarget t
    match o.role_at pos target with
    | some capture => n.deactivate stm.other capture target
    | none => n
  | .castle k r =>
    let n := n.deactivate stm .king k
    let n := n.deactivate stm .rook r
    if k = (4 : Fin 64) then
      if r = (7 : Fin 64) then (n.activate stm .king (6 : Fin 64)).activate stm .rook (5 : Fin 64)
      else if r = (0 : Fin 64) then
        (n.activate stm .king (2 : Fin 64)).activate stm .rook (3 : Fin 64)
      else n
    else if k = (60 : Fin 64) then
      if r = (63 : Fin 64) then
        (n.activate stm .king (62 : Fin 64)).activate stm .rook (61 : Fin 64)
      else if r = (56 : Fin 64) then
        (n.activate stm .king (58 : Fin 64)).activate stm .rook (59 : Fin 64)
      else n
    else n
  | .put role t => n.activate stm role t

/-- `Board::make_move::<IN_PLACE>` (src/board.rs lines 105-183): push the
pre-move position, stack the accumulator and bump the ply when not in
place, apply the feature deltas, play the move, commit, push the move and
the new hash. -/
def Board.make_move {P : Type} (o : Oracle P) (inPlace : Bool) (mv : Move) (b : Board P) :
    Board P :=
  let b1 : Board P := { b with state_stack := b.pos :: b.state_stack }
  let b2 : Board P :=
    if inPlace then b1 else { b1 with nnue := b1.nnue.push, ply := b1.ply + 1 }
  let stm := o.turn b.pos
  let b3 : Board P := { b2 with nnue := applyMoveFeatures o b.pos stm mv b2.nnue }
  let b4 : Board P := { b3 with pos := o.play_unchecked b3.pos mv, nnue := b3.nnue.commit }
  let b5 : Board P := { b4 with move_stack := some mv :: b4.move_stack }
  { b5 with history := o.zobrist b5.pos :: b5.history }

/-- `Board::undo_move` (src/board.rs lines 185-191): pop the accumulator,
the move stack, the saved position and the hash history, decrement the
ply.  The Rust `unwrap` on an empty state stack is the `none` case. -/
def Board.undo_move {P : Type} (b : Board P) : Option (Board P) :=
  match b.state_stack with
  | [] => none
  | p :: rest =>
    some
      { pos := p, nnue := b.nnue.pop, state_stack := rest, move_stack := b.move_stack.tail,
        history := b.history.tail, ply := b.ply - 1, eval_stack := b.eval_stack }

/-- `Board::make_null_move` (src/board.rs lines 193-200): push the
position, swap the turn when shakmaty allows it, push `None` on the move
stack, bump the ply.  The hash history and the accumulator are untouched. -/
def Board.make_null_move {P : Type} (o : Oracle P) (b : Board P) : Board P :=
  { b with
    state_stack := b.pos :: b.state_stack,
    pos :=
      match o.swap_turn b.pos with
      | some p => p
      | none => b.pos,
    move_stack := none :: b.move_stack,
    ply := b.ply + 1 }

/-- `Board::undo_null_move` (src/board.rs lines 202-206). -/
def Board.undo_null_move {P : Type} (b : Board P) : Option (Board P) :=
  match b.state_stack with
  | [] => none
  | p :: rest =>
    some { b with pos := p, state_stack := rest, move_stack := b.move_stack.tail, ply := b.ply - 1 }

/-- `Board::is_last_move_null` (src/board.rs lines 208-210): the source
returns `self.move_stack.last().is_none()`.  `move_stack` is a
`Vec<Option<Move>>`, so `.last()` is an `Option<&Option<Move>>` and
`.is_none()` tests whether the vector is EMPTY, not whether its last
element is `None`; the model mirrors that outer test. -/
def Board.is_last_move_null {P : Type} (b : Board P) : Bool :=
  b.move_stack.head?.isNone

/-- `Board::evaluate` (src/board.rs lines 212-215): the network score for
the side to move, clamped into `[-MATE_BOUND + 1, MATE_BOUND - 1]`
(`i32::clamp`). -/
def Board.evaluate {P : Type} (o : Oracle P) (b : Board P) : Int :=
  max (-Score.MATE_BOUND + 1) (min (o.nnue_eval b.nnue.top (o.turn b.pos)) (Score.MATE_BOUND - 1))

/-- `Board::three_fold` (src/board.rs lines 221-233): at least two
occurrences of the current hash in the history. -/
def Board.three_fold {P : Type} (o : Oracle P) (b : Board P) : Bool :=
  decide (2 ≤ b.history.countP (fun h => h == o.zobrist b.pos))

/-- `Board::set_eval` (src/board.rs lines 235-237). -/
def Board.set_eval {P : Type} (b : Board P) (ply : Nat) (eval : Int) : Board P :=
  { b with eval_stack := fun i => if i = ply then eval else b.eval_stack i }

/-- `Board::legal_moves` (src/board.rs lines 217-219). -/
def Board.legal_moves {P : Type} (o : Oracle P) (b : Board P) : List Move :=
  o.legal_moves b.pos

/-- `Board::capture_moves` (src/board.rs lines 89-91). -/
def Board.capture_moves {P : Type} (o : Oracle P) (b : Board P) : List Move :=
  o.capture_moves b.pos

/-- `Board::in_check` (src/board.rs lines 85-87). -/
def Board.in_check {P : Type} (o : Oracle P) (b : Board P) : Bool :=
  o.is_check b.pos

/-! ## Transposition table (src/transposition.rs is not under src/) -/

/-- Modelled from the spec: the bound kinds of a TT entry (section 3). -/
inductive Bound
  | exact
  | alpha
  | beta
deriving DecidableEq

/-- Modelled from the spec: a TT entry (section 3): 64-bit fingerprint,
depth, score, bound, best move. -/
structure TTEntry where
  key : Nat
  depth : Int
  score : Int
  bound : Bound
  m : Option Move
deriving DecidableEq

/-- Modelled from the spec: `valid_cutoff(entry, α, β, depth)` (section 3):
entry.depth ≥ depth and the bound admits a cutoff in the window. -/
def TTEntry.valid_cutoff (e : TTEntry) (alpha beta depth : Int) : Bool :=
  decide (depth ≤ e.depth) &&
    (e.bound == .exact || (e.bound == .beta && decide (beta ≤ e.score)) ||
      (e.bound == .alpha && decide (e.score ≤ alpha)))

/-- Modelled from the spec: the fixed array of single-entry slots indexed by
`hash mod capacity` (section 3), as an association list whose most recent
write for a slot index shadows older ones (always-replace). -/
structure TranspositionTable where
  capacity : Nat
  slots : List (Nat × TTEntry)

/-- Modelled from the spec: ply-normalization of mate scores on write
(section 3/4.7: stored relative to the node). -/
def ttNormalize (score : Int) (ply : Nat) : Int :=
  if Score.MATE_BOUND ≤ score then score + ply
  else if score ≤ -Score.MATE_BOUND then score - ply
  else score

/-- Modelled from the spec: the inverse adjustment on read (section 4.7:
un-normalize mate scores by subtracting the ply toward the root). -/
def ttUnnormalize (score : Int) (ply : Nat) : Int :=
  if Score.MATE_BOUND ≤ score then score - ply
  else if score ≤ -Score.MATE_BOUND then score + ply
  else score

/-- Modelled from the spec: `TranspositionTable::read(hash, ply)`
(section 4.7): constant-time slot lookup, fingerprint check, mate
un-normalization. -/
def TranspositionTable.read (tt : TranspositionTable) (hash : Nat) (ply : Nat) :
    Option TTEntry :=
  match tt.slots.lookup (hash % tt.capacity) with
  | some e => if e.key = hash then some { e with score := ttUnnormalize e.score ply } else none
  | none => none

/-- Modelled from the spec: `TranspositionTable::write` (section 4.7):
always-replace at slot `hash % capacity`, mate normalization by ply. -/
def TranspositionTable.write (tt : TranspositionTable) (hash : Nat) (depth : Int)
    (score : Int) (bound : Bound) (m : Option Move) (ply : Nat) : TranspositionTable :=
  { tt with
    slots := (hash % tt.capacity, ⟨hash, depth, ttNormalize score ply, bound, m⟩) :: tt.slots }

/-! ## Search state (src/search/defs.rs is not under src/) -/

/-- Modelled from the spec: the per-search `SearchInfo` (section 3): node
counter, selective depth, current ply, triangular PV table with its active
lengths, per-ply killer, history tables, termination flag.  `elapsed()` is
wall-clock time, modelled as an abstract field. -/
structure SearchInfo where
  nodes : Nat
  sel_depth : Nat
  ply : Nat
  pv : Nat → Nat → Option Move
  pv_length : Nat → Nat
  killers : Nat → Option Move
  history : HistoryTables
  terminated : Bool
  elapsed : Nat

/-- Modelled from the spec: `SearchParams` (section 3): iterative ceiling
and time budget in ms. -/
structure SearchParams where
  depth : Nat
  search_time : Nat

/-- The read-only data of a `SearchRefs`: the oracle for the external
collaborators, the tunables and the search parameters. -/
structure SearchCtx (P : Type) where
  oracle : Oracle P
  params : Params
  search_params : SearchParams

/-- The mutable data of a `SearchRefs`: board, search info, TT. -/
structure SearchState (P : Type) where
  board : Board P
  info : SearchInfo
  tt : TranspositionTable

/-- `refs.search_info.pv[ply].fill(None)` (src/search/alpha_beta.rs line
11). -/
def clearPvRow {P : Type} (s : SearchState P) (ply : Nat) : SearchState P :=
  { s with info := { s.info with pv := fun i j => if i = ply then none else s.info.pv i j } }

/-- `Search::update_pv` (src/search/alpha_beta.rs lines 241-247): write the
best move at `pv[ply][ply]`, copy the child PV suffix, adopt the child PV
length. -/
def updatePv {P : Type} (s : SearchState P) (best_move : Option Move) (ply : Nat) :
    SearchState P :=
  let len := s.info.pv_length (ply + 1)
  { s with
    info :=
      { s.info with
        pv := fun i j =>
          if i = ply then
            if j = ply then best_move
            else if ply + 1 ≤ j ∧ j < len then s.info.pv (ply + 1) j
            else s.info.pv i j
          else s.info.pv i j,
        pv_length := fun i => if i = ply then len else s.info.pv_length i } }

/-- Modelled from the spec: the history bonus `min(depth·depth, CAP)`
(section 4.6). -/
def histBonus (p : Params) (depth : Int) : Int := min (depth * depth) p.history_cap

/-- Modelled from the spec: the gravity update
`h += bonus − h·|bonus|/MAX_HISTORY` (section 4.6). -/
def gravityAdd (p : Params) (bonus h : Int) : Int := h + bonus - h * |bonus| / p.max_history

/-- Modelled from the spec: `History::update_main` (section 4.6): reward
the cutoff move, penalize the earlier tried quiets with `-bonus`. -/
def updateMainHistory (p : Params) (tables : HistoryTables) (c : Color) (best : Move)
    (quiets : List Move) (depth : Int) : HistoryTables :=
  let bonus := histBonus p depth
  { tables with
    main := fun c2 f t =>
      if c2 = c ∧ best.fromSq = some f ∧ best.toSq = t then gravityAdd p bonus (tables.main c2 f t)
      else if c2 = c ∧ quiets.any (fun q => q.fromSq == some f && q.toSq == t) then
        gravityAdd p (-bonus) (tables.main c2 f t)
      else tables.main c2 f t }

/-- Modelled from the spec: `History::update_capture` (section 4.6), keyed
by (piece, to, captured), same gravity update. -/
def updateCaptureHistory (p : Params) (tables : HistoryTables) (best : Move)
    (captures : List Move) (depth : Int) : HistoryTables :=
  let bonus := histBonus p depth
  { tables with
    capture := fun r t cr =>
      if best.role = r ∧ best.toSq = t ∧ best.capture = some cr then
        gravityAdd p bonus (tables.capture r t cr)
      else if captures.any (fun q => q.role == r && q.toSq == t && q.capture == some cr) then
        gravityAdd p (-bonus) (tables.capture r t cr)
      else tables.capture r t cr }

/-- `Search::update_ordering_heuristics` (src/search/alpha_beta.rs lines
222-239): capture cutoffs bump the capture history; quiet cutoffs set the
killer at the current ply and bump the main history. -/
def updateOrderingHeuristics {P : Type} (C : SearchCtx P) (s : SearchState P) (depth : Int)
    (best_move : Move) (captures quiets : List Move) : SearchState P :=
  if best_move.is_capture then
    { s with
      info :=
        { s.info with
          history := updateCaptureHistory C.params s.info.history best_move captures depth } }
  else
    { s with
      info :=
        { s.info with
          killers := fun i => if i = s.info.ply then some best_move else s.info.killers i,
          history :=
            updateMainHistory C.params s.info.history (C.oracle.turn s.board.pos) best_move
              quiets depth } }

/-- The `SortCtx` a node passes to `sort_moves`, read off the live state. -/
def sortCtxOf {P : Type} (C : SearchCtx P) (s : SearchState P) : SortCtx :=
  { seeCtx := C.oracle.seeC s.board.pos, turn := C.oracle.turn s.board.pos,
    killer := s.info.killers s.info.ply, history := s.info.history,
    ordering_main := C.params.ordering_main }

/-- Modelled from the spec: `Search::qsearch` (section 4.3;
src/search/qsearch.rs is not under src/): node count and time check,
stand-pat, TT probe at depth 0, capture generation, capture ordering, SEE
gate at threshold 0, negamax recursion over captures.  Recursion depth is
bounded by an explicit fuel. -/
def qsearch {P : Type} (C : SearchCtx P) :
    Nat → SearchState P → Int → Int → Int × SearchState P
  | 0, s, _, _ => (0, s)
  | fuel + 1, s, alpha, beta =>
    let s := { s with info := { s.info with nodes := s.info.nodes + 1 } }
    if s.info.nodes % 2048 = 0 ∧ C.search_params.search_time < s.info.elapsed then
      (0, { s with info := { s.info with terminated := true } })
    else
      let stand_pat := Board.evaluate C.oracle s.board
      if beta ≤ stand_pat then (beta, s)
      else
        let alpha := max alpha stand_pat
        let ply := s.info.ply
        let cut : Option Int :=
          match s.tt.read (Board.get_hash C.oracle s.board) ply with
          | some e => if e.valid_cutoff alpha beta 0 then some e.score else none
          | none => none
        match cut with
        | some sc => (sc, s)
        | none =>
          let moves := sort_moves (sortCtxOf C s) none none (Board.capture_moves C.oracle s.board)
          let r :=
            moves.foldl
              (fun (acc : Int × Int × SearchState P × Bool) mv =>
                let (best, alpha, s, broke) := acc
                if broke then acc
                else if (see (C.oracle.seeC s.board.pos) mv 0).getD false = false then acc
                else
                  let s1 :=
                    { s with
                      board := Board.make_move C.oracle false mv s.board,
                      info := { s.info with ply := s.info.ply + 1 } }
                  let pr := qsearch C fuel s1 (-beta) (-alpha)
                  let score := -pr.1
                  let s3 :=
                    { pr.2 with
                      board := (Board.undo_move pr.2.board).getD pr.2.board,
                      info := { pr.2.info with ply := pr.2.info.ply - 1 } }
                  let best2 := max best score
                  let alpha2 := max alpha score
                  (best2, alpha2, s3, decide (beta ≤ alpha2)))
              (alpha, alpha, s, false)
          (r.1, r.2.2.1)

/-- The accumulator of the move loop of `alpha_beta`
(src/search/alpha_beta.rs lines 107-186): running best score/move, the
window's alpha, the tried captures and quiets, the live state, the
`moves_searched` index and the loop-break flag. -/
structure LoopAcc (P : Type) where
  best_score : Int
  best_move : Option Move
  alpha : Int
  captures : List Move
  quiets : List Move
  s : SearchState P
  i : Nat
  broke : Bool

/-- The bookkeeping of `Search::alpha_beta` (src/search/alpha_beta.rs
lines 71-73): `nodes += 1`, `sel_depth = max(sel_depth, ply)`,
`pv_length[ply] = ply`. -/
def bookkeep {P : Type} (s : SearchState P) (ply : Nat) : SearchState P :=
  { s with
    info :=
      { s.info with
        nodes := s.info.nodes + 1,
        sel_depth := max s.info.sel_depth ply,
        pv_length := fun i => if i = ply then ply else s.info.pv_length i } }

/-- The pre-move-loop pruning block of `Search::alpha_beta`
(src/search/alpha_beta.rs lines 76-102) — reverse futility pruning,
razoring, null move pruning — factored out of `alphaBeta`.  `recq` is the
quiescence search and `rec` the recursive search at the remaining fuel;
`Sum.inl` is an early return, `Sum.inr` the state to continue with. -/
def alphaBetaPrune {P : Type} (C : SearchCtx P)
    (recq : SearchState P → Int → Int → Int × SearchState P)
    (rec : SearchState P → Int → Int → Int → Int × SearchState P) (ply : Nat)
    (depth3 eval alpha1 beta1 : Int) (in_check : Bool) (pv_node : Prop) [Decidable pv_node]
    (s : SearchState P) : (Int × SearchState P) ⊕ SearchState P :=
  let nmp : SearchState P → (Int × SearchState P) ⊕ SearchState P := fun s =>
    if Board.is_last_move_null s.board = false ∧ 4 ≤ depth3 ∧ beta1 < eval then
      let r := 3 + depth3 / 3 + min ((eval - beta1) / 200) 4
      let sN := { s with board := Board.make_null_move C.oracle s.board }
      let pr := rec sN (depth3 - r) (-beta1) (-beta1 + 1)
      let score := -pr.1
      let sN3 := { pr.2 with board := (Board.undo_null_move pr.2.board).getD pr.2.board }
      if beta1 ≤ score then Sum.inl (beta1, sN3) else Sum.inr sN3
    else Sum.inr s
  if in_check = false ∧ ¬pv_node ∧ ply ≠ 0 then
    if depth3 < C.params.rfp_depth ∧ beta1 < eval - C.params.rfp_margin * depth3 then
      Sum.inl (eval, s)
    else if depth3 ≤ C.params.razoring_depth ∧
        eval + C.params.razoring_margin * depth3 + C.params.razoring_fixed_margin ≤ alpha1 then
      let qr := recq s alpha1 beta1
      if qr.1 ≤ alpha1 then Sum.inl qr else nmp qr.2
    else nmp s
  else Sum.inr s

/-- The move generation, ordering, PVS/LMR move loop (with futility and
SEE pruning), mate/stalemate detection, bound classification,
ordering-heuristic update and TT store of `Search::alpha_beta`
(src/search/alpha_beta.rs lines 104-220), factored out of `alphaBeta`;
`rec` is the recursive search at the remaining fuel. -/
def alphaBetaMoves {P : Type} (C : SearchCtx P)
    (rec : SearchState P → Int → Int → Int → Int × SearchState P) (ply : Nat)
    (depth3 eval alpha1 beta1 original_alpha : Int) (in_check : Bool) (pv_node : Prop)
    [Decidable pv_node] (tt_move : Option Move) (s : SearchState P) : Int × SearchState P :=
  let moves :=
    sort_moves (sortCtxOf C s) (s.info.pv ply ply) tt_move (Board.legal_moves C.oracle s.board)
  let init : LoopAcc P :=
    { best_score := -Score.INFINITY, best_move := none, alpha := alpha1, captures := [],
      quiets := [], s := s, i := 0, broke := false }
  let L :=
    moves.foldl
      (fun (acc : LoopAcc P) mv =>
        if acc.broke then acc
        else if ply ≠ 0 ∧ 0 < acc.i ∧ -Score.MATE_BOUND < acc.alpha ∧
            (¬pv_node ∧ in_check = false ∧ mv.is_capture = false ∧
              depth3 ≤ C.params.fp_depth ∧
              eval + C.params.fp_margin * depth3 + C.params.fp_fixed_margin < acc.alpha) then
          { acc with broke := true }
        else if ply ≠ 0 ∧ 0 < acc.i ∧ -Score.MATE_BOUND < acc.alpha ∧
            (depth3 < C.params.see_depth ∧
              (see (C.oracle.seeC acc.s.board.pos) mv
                  (-(if mv.is_capture then C.params.see_noisy_margin
                     else C.params.see_quiet_margin) * depth3)).getD false =
                false) then
          { acc with i := acc.i + 1 }
        else
          let sb :=
            { acc.s with
              board := Board.make_move C.oracle false mv acc.s.board,
              info := { acc.s.info with ply := acc.s.info.ply + 1 } }
          let pr :=
            if acc.i = 0 then
              let pr1 := rec sb (depth3 - 1) (-beta1) (-acc.alpha)
              (-pr1.1, pr1.2)
            else
              let pr0 :=
                if C.params.lmr_moves_played ≤ acc.i ∧
                    C.params.lmr_depth ≤ depth3 ∧ 3 ≤ ply ∧
                    mv.is_capture = false ∧ mv.is_promotion = false ∧
                    in_check = false ∧ some mv ≠ sb.info.killers ply then
                  let pr1 := rec sb (depth3 - 2) (-acc.alpha - 1) (-acc.alpha)
                  (-pr1.1, pr1.2)
                else (acc.alpha + 1, sb)
              if acc.alpha < pr0.1 then
                let pr1 := rec pr0.2 (depth3 - 1) (-acc.alpha - 1) (-acc.alpha)
                let sc := -pr1.1
                if acc.alpha < sc ∧ sc < beta1 then
                  let pr2 := rec pr1.2 (depth3 - 1) (-beta1) (-acc.alpha)
                  (-pr2.1, pr2.2)
                else (sc, pr1.2)
              else pr0
          let score := pr.1
          let s5 :=
            { pr.2 with
              board := (Board.undo_move pr.2.board).getD pr.2.board,
              info := { pr.2.info with ply := pr.2.info.ply - 1 } }
          let acc2 :=
            if acc.best_score < score then
              if acc.alpha < score then
                { acc with
                  best_score := score, best_move := some mv, alpha := score,
                  s := updatePv s5 (some mv) ply, i := acc.i + 1 }
              else
                { acc with
                  best_score := score, best_move := some mv, s := s5, i := acc.i + 1 }
            else { acc with s := s5, i := acc.i + 1 }
          if beta1 ≤ acc2.alpha then { acc2 with broke := true }
          else if mv.is_capture then { acc2 with captures := acc2.captures ++ [mv] }
          else { acc2 with quiets := acc2.quiets ++ [mv] })
      init
  if moves = [] then (if in_check then Score.mated_in ply else Score.DRAW, L.s)
  else
    let bound : Bound :=
      if L.best_score ≤ original_alpha then .alpha
      else if beta1 ≤ L.best_score then .beta
      else .exact
    let s6 :=
      if bound = Bound.beta then
        match L.best_move with
        | some bm => updateOrderingHeuristics C L.s depth3 bm L.captures L.quiets
        | none => L.s
      else L.s
    let s7 :=
      { s6 with
        tt :=
          s6.tt.write (Board.get_hash C.oracle s6.board) depth3 L.best_score bound L.best_move
            ply }
    (L.best_score, s7)

/-- `Search::alpha_beta` (src/search/alpha_beta.rs lines 9-220), state
passing with an explicit recursion fuel (fuel 0 mirrors a terminated
search returning 0; every concrete run below supplies enough fuel).  The
body follows the source line by line: PV clear, 2048-node time check, draw
detection and mate distance pruning when not root, max-ply stand-pat,
qsearch hand-off, TT probe and cutoff, internal iterative reductions,
check extension, bookkeeping, static eval, reverse futility pruning,
razoring, null move pruning, and then the move loop and postamble of
`alphaBetaMoves`. -/
def alphaBeta {P : Type} (C : SearchCtx P) :
    Nat → SearchState P → Int → Int → Int → Int × SearchState P
  | 0, s, _, _, _ => (0, s)
  | fuel + 1, s, depth, alpha, beta =>
    let ply := s.info.ply
    let s := clearPvRow s ply
    if s.info.nodes % 2048 = 0 ∧ C.search_params.search_time < s.info.elapsed then
      (0, { s with info := { s.info with terminated := true } })
    else
      let pv_node := 1 < beta - alpha
      let original_alpha := alpha
      let in_check := Board.in_check C.oracle s.board
      if ply ≠ 0 ∧ Board.three_fold C.oracle s.board then (Score.DRAW, s)
      else
        let alpha1 := if ply = 0 then alpha else max alpha (-Score.MATE + (ply : Int))
        let beta1 := if ply = 0 then beta else min beta (Score.MATE - (ply : Int) - 1)
        if ply ≠ 0 ∧ beta1 ≤ alpha1 then (alpha1, s)
        else if MAX_PLY - 1 ≤ ply then (Board.evaluate C.oracle s.board, s)
        else if depth ≤ 0 ∧ in_check = false then qsearch C fuel s alpha1 beta1
        else
          let depth1 := max depth 0
          let hit := s.tt.read (Board.get_hash C.oracle s.board) ply
          let cut : Option Int :=
            hit.bind fun e =>
              if ¬pv_node ∧ e.valid_cutoff alpha1 beta1 depth1 then some e.score else none
          match cut with
          | some sc => (sc, s)
          | none =>
            let tt_move : Option Move := hit.bind fun e => e.m
            let depth2 :=
              if ply ≠ 0 ∧ tt_move = none ∧ C.params.iir_depth ≤ depth1 then depth1 - 1
              else depth1
            let depth3 := if in_check then depth2 + 1 else depth2
            let s := bookkeep s ply
            let eval := Board.evaluate C.oracle s.board
            let pruned : (Int × SearchState P) ⊕ SearchState P :=
              alphaBetaPrune C (qsearch C fuel) (alphaBeta C fuel) ply depth3 eval alpha1 beta1
                in_check pv_node s
            match pruned with
            | Sum.inl r => r
            | Sum.inr s =>
              alphaBetaMoves C (alphaBeta C fuel) ply depth3 eval alpha1 beta1 original_alpha
                in_check pv_node tt_move s

/-! ## Helper lemmas -/

/-- The per-variant feature updates never touch the accumulator stack. -/
lemma applyMoveFeatures_stack {P : Type} (o : Oracle P) (pos : P) (stm : Color) (mv : Move)
    (n : NNUE) : (applyMoveFeatures o pos stm mv n).stack = n.stack := by
  cases mv with
  | normal r f c t p =>
    cases c <;> cases p <;>
      simp [applyMoveFeatures, NNUE.activate, NNUE.deactivate, NNUE.modTop]
  | enPassant f t =>
    rcases h : o.role_at pos (epTarget t) with _ | cap <;>
      simp [applyMoveFeatures, h, NNUE.activate, NNUE.deactivate, NNUE.modTop]
  | castle k r =>
    simp only [applyMoveFeatures]
    split_ifs <;> simp [NNUE.activate, NNUE.deactivate, NNUE.modTop]
  | put r t => simp [applyMoveFeatures, NNUE.activate, NNUE.modTop]

/-- Popping a network whose stack is known to be a cons. -/
lemma NNUE.pop_of_stack (n : NNUE) (t : Accum) (r : List Accum) (h : n.stack = t :: r) :
    n.pop = { top := t, stack := r } := by
  cases n
  subst h
  rfl

/-- Inserting into a list permutes to consing. -/
lemma perm_insortByKey {α : Type} (key : α → Int) (a : α) (l : List α) :
    List.Perm (insortByKey key a l) (a :: l) := by
  induction l with
  | nil => simp [insortByKey]
  | cons b t ih =>
    rw [insortByKey]
    split_ifs
    · exact List.Perm.refl _
    · exact (List.Perm.cons b ih).trans (List.Perm.swap a b t)

/-- The stable ascending sort permutes its input. -/
lemma perm_sortByKey {α : Type} (key : α → Int) (l : List α) :
    List.Perm (sortByKey key l) l := by
  induction l with
  | nil => exact List.Perm.refl _
  | cons a t ih => exact (perm_insortByKey key a _).trans (List.Perm.cons a ih)

/-- Insertion preserves the nondecreasing-key pairwise order. -/
lemma pairwise_insortByKey {α : Type} (key : α → Int) (a : α) (l : List α)
    (h : l.Pairwise (fun x y => key x ≤ key y)) :
    (insortByKey key a l).Pairwise (fun x y => key x ≤ key y) := by
  induction l with
  | nil => simp [insortByKey]
  | cons b t ih =>
    rw [List.pairwise_cons] at h
    rw [insortByKey]
    split_ifs with hab
    · refine List.Pairwise.cons ?_ (List.Pairwise.cons h.1 h.2)
      intro y hy
      rcases List.mem_cons.mp hy with rfl | hy
      · exact hab
      · exact le_trans hab (h.1 y hy)
    · refine List.Pairwise.cons ?_ (ih h.2)
      intro y hy
      rcases List.mem_cons.mp ((perm_insortByKey key a t).mem_iff.mp hy) with rfl | hy
      · omega
      · exact h.1 y hy

/-- The stable ascending sort is sorted by key. -/
lemma pairwise_sortByKey {α : Type} (key : α → Int) (l : List α) :
    (sortByKey key l).Pairwise (fun x y => key x ≤ key y) := by
  induction l with
  | nil => simp [sortByKey]
  | cons a t ih => exact pairwise_insortByKey key a _ ih

/-- Filtering one key class through an insertion: the inserted element, if
it belongs to the class, lands exactly at the front (stability of the
ascending sort). -/
lemma filter_insortByKey {α : Type} (key : α → Int) (a : α) (l : List α) (k : Int) :
    (insortByKey key a l).filter (fun x => key x == k) =
      if key a == k then a :: l.filter (fun x => key x == k)
      else l.filter (fun x => key x == k) := by
  induction l with
  | nil =>
    rw [insortByKey]
    simp [List.filter_cons]
  | cons b t ih =>
    rw [insortByKey]
    by_cases hab : key a ≤ key b
    · rw [if_pos hab, List.filter_cons]
    · rw [if_neg hab, List.filter_cons, ih]
      by_cases hak : (key a == k) = true
      · have hk : key a = k := by simpa using hak
        have hbk : (key b == k) = false := by
          rw [beq_eq_false_iff_ne]
          omega
        simp [hak, hbk, List.filter_cons]
      · simp only [Bool.not_eq_true] at hak
        simp [hak, List.filter_cons]

/-- Filtering one key class commutes with the stable ascending sort: the
class keeps its input order. -/
lemma filter_sortByKey {α : Type} (key : α → Int) (l : List α) (k : Int) :
    (sortByKey key l).filter (fun x => key x == k) = l.filter (fun x => key x == k) := by
  induction l with
  | nil => rfl
  | cons a t ih =>
    rw [sortByKey, filter_insortByKey, ih, List.filter_cons]

lemma clearPvRow_board {P : Type} (s : SearchState P) (p : Nat) :
    (clearPvRow s p).board = s.board := rfl

lemma clearPvRow_tt {P : Type} (s : SearchState P) (p : Nat) : (clearPvRow s p).tt = s.tt := rfl

lemma clearPvRow_info_nodes {P : Type} (s : SearchState P) (p : Nat) :
    (clearPvRow s p).info.nodes = s.info.nodes := rfl

lemma clearPvRow_info_elapsed {P : Type} (s : SearchState P) (p : Nat) :
    (clearPvRow s p).info.elapsed = s.info.elapsed := rfl

lemma clearPvRow_info_ply {P : Type} (s : SearchState P) (p : Nat) :
    (clearPvRow s p).info.ply = s.info.ply := rfl

lemma clearPvRow_info_sel_depth {P : Type} (s : SearchState P) (p : Nat) :
    (clearPvRow s p).info.sel_depth = s.info.sel_depth := rfl

lemma clearPvRow_info_killers {P : Type} (s : SearchState P) (p : Nat) :
    (clearPvRow s p).info.killers = s.info.killers := rfl

lemma clearPvRow_info_history {P : Type} (s : SearchState P) (p : Nat) :
    (clearPvRow s p).info.history = s.info.history := rfl

lemma clearPvRow_info_pv_length {P : Type} (s : SearchState P) (p : Nat) :
    (clearPvRow s p).info.pv_length = s.info.pv_length := rfl

/-- Sorting the empty move list yields the empty list. -/
lemma sort_moves_nil (ctx : SortCtx) (pv_move tt_move : Option Move) :
    sort_moves ctx pv_move tt_move [] = [] := rfl

lemma bookkeep_board {P : Type} (s : SearchState P) (p : Nat) :
    (bookkeep s p).board = s.board := rfl

lemma bookkeep_tt {P : Type} (s : SearchState P) (p : Nat) : (bookkeep s p).tt = s.tt := rfl

lemma bookkeep_info_ply {P : Type} (s : SearchState P) (p : Nat) :
    (bookkeep s p).info.ply = s.info.ply := rfl

lemma bookkeep_info_killers {P : Type} (s : SearchState P) (p : Nat) :
    (bookkeep s p).info.killers = s.info.killers := rfl

lemma bookkeep_info_history {P : Type} (s : SearchState P) (p : Nat) :
    (bookkeep s p).info.history = s.info.history := rfl

/-- When none of the reverse-futility, razoring and null-move guards can
fire, the pruning block passes its state through unchanged. -/
lemma alphaBetaPrune_no_fire {P : Type} {C : SearchCtx P}
    {recq : SearchState P → Int → Int → Int × SearchState P}
    {rec : SearchState P → Int → Int → Int → Int × SearchState P} {ply : Nat}
    {depth3 eval alpha1 beta1 : Int} {in_check : Bool} {pv_node : Prop} [Decidable pv_node]
    (s : SearchState P)
    (h : in_check = false → ¬pv_node → ply ≠ 0 →
      ¬(depth3 < C.params.rfp_depth ∧ beta1 < eval - C.params.rfp_margin * depth3) ∧
      ¬(depth3 ≤ C.params.razoring_depth ∧
        eval + C.params.razoring_margin * depth3 + C.params.razoring_fixed_margin ≤ alpha1) ∧
      ¬(Board.is_last_move_null s.board = false ∧ 4 ≤ depth3 ∧ beta1 < eval)) :
    alphaBetaPrune C recq rec ply depth3 eval alpha1 beta1 in_check pv_node s = Sum.inr s := by
  simp only [alphaBetaPrune]
  by_cases hc : in_check = false ∧ ¬pv_node ∧ ply ≠ 0
  · obtain ⟨h1, h2, h3⟩ := h hc.1 hc.2.1 hc.2.2
    rw [if_pos hc, if_neg h1, if_neg h2, if_neg h3]
  · rw [if_neg hc]

/-- With no legal move, the move-loop phase returns `mated_in(ply)` in
check and `DRAW` otherwise, leaving the state as it was (the source
returns before the TT store). -/
lemma alphaBetaMoves_no_moves {P : Type} {C : SearchCtx P}
    {rec : SearchState P → Int → Int → Int → Int × SearchState P} {ply : Nat}
    {depth3 eval alpha1 beta1 original_alpha : Int} {in_check : Bool} {pv_node : Prop}
    [Decidable pv_node] {tt_move : Option Move} {s : SearchState P}
    (h : C.oracle.legal_moves s.board.pos = []) :
    alphaBetaMoves C rec ply depth3 eval alpha1 beta1 original_alpha in_check pv_node tt_move
        s =
      (if in_check then Score.mated_in ply else Score.DRAW, s) := by
  simp only [alphaBetaMoves, Board.legal_moves, h, sort_moves_nil, List.foldl_nil]
  exact if_pos trivial

lemma Color.other_ne (c : Color) : c.other ≠ c := by
  cases c <;> decide

lemma Color.eq_other_of_ne {a b : Color} (h : a ≠ b) : a.other = b := by
  cases a <;> cases b
  · exact absurd rfl h
  · rfl
  · rfl
  · exact absurd rfl h

/-- Monotonicity of the swap-off loop in the running balance: at the side
opposing the original mover a larger balance preserves a winning verdict,
and at the original mover's side a smaller balance does.  The attacker
sequence never depends on the balance, only the break timing does. -/
lemma seeLoop_mono (ctx : SeeCtx) (target : Square) (fuel : Nat) :
    ∀ (occ atk : Finset Square) (stm : Color) (b b2 : Int), b ≤ b2 →
      (stm ≠ ctx.turn → seeLoop ctx target fuel occ atk stm b = true →
        seeLoop ctx target fuel occ atk stm b2 = true) ∧
      (stm = ctx.turn → seeLoop ctx target fuel occ atk stm b2 = true →
        seeLoop ctx target fuel occ atk stm b = true) := by
  induction fuel with
  | zero =>
    intro occ atk stm b b2 hb
    exact ⟨fun _ h => h, fun _ h => h⟩
  | succ n ih =>
    intro occ atk stm b b2 hb
    by_cases hne : atk ∩ ctx.byColor stm = ∅
    · simp only [seeLoop, if_pos hne]
      exact ⟨fun _ h => h, fun _ h => h⟩
    · rcases hlva : least_valuable_attacker ctx (atk ∩ ctx.byColor stm) with _ | attacker
      · simp only [seeLoop, if_neg hne, hlva]
        exact ⟨fun _ h => h, fun _ h => h⟩
      · by_cases hking : attacker = Role.king ∧ (atk ∩ ctx.byColor stm.other).Nonempty
        · simp only [seeLoop, if_neg hne, hlva, if_pos hking]
          exact ⟨fun _ h => h, fun _ h => h⟩
        · simp only [seeLoop, if_neg hne, hlva, if_neg hking]
          constructor
          · intro hstm hL
            have hoth : stm.other = ctx.turn := Color.eq_other_of_ne hstm
            by_cases h1 : (0 : Int) ≤ -b - 1 - seeValue attacker
            · rw [if_pos h1, decide_eq_true_eq] at hL
              exact absurd hoth hL
            · rw [if_neg h1] at hL
              have h2 : ¬((0 : Int) ≤ -b2 - 1 - seeValue attacker) := by omega
              rw [if_neg h2]
              have hb2 : -b2 - 1 - seeValue attacker ≤ -b - 1 - seeValue attacker := by omega
              exact (ih _ _ _ _ _ hb2).2 hoth hL
          · intro hstm hL
            have hoth : stm.other ≠ ctx.turn := by
              rw [hstm]
              exact Color.other_ne ctx.turn
            by_cases h2 : (0 : Int) ≤ -b2 - 1 - seeValue attacker
            · have h1 : (0 : Int) ≤ -b - 1 - seeValue attacker := by omega
              rw [if_pos h2] at hL
              rw [if_pos h1]
              exact hL
            · by_cases h1 : (0 : Int) ≤ -b - 1 - seeValue attacker
              · rw [if_pos h1, decide_eq_true_eq]
                exact hoth
              · rw [if_neg h2] at hL
                rw [if_neg h1]
                have hb2 : -b2 - 1 - seeValue attacker ≤ -b - 1 - seeValue attacker := by omega
                exact (ih _ _ _ _ _ hb2).1 hoth hL

/-! ## Claim theorems -/

/-- Claim C1: the claim says that after a null move `is_last_move_null()`
returns true and null-move pruning is therefore skipped at the child.  The
code disagrees: `self.move_stack.last().is_none()` tests the outer
`Option` of `Vec::last`, i.e. whether the move stack is EMPTY, so
immediately after `make_null_move` (which pushes `None`) it returns false
for every board and every oracle, and `alpha_beta` may try a second null
move in a row. -/
theorem claim_C1_code_eval {P : Type} (o : Oracle P) (b : Board P) :
    Board.is_last_move_null (Board.make_null_move o b) = false := by
  simp [Board.is_last_move_null, Board.make_null_move]

/-- Claim C2: the claim says a move equal to the previous iteration's PV
move gets the `HASH_MOVE` key.  The code disagrees: the closure's
comparison with `pv_move` has an empty body (`if mv == m {}`), so the key
never depends on `pv_move` at all — the key of any move under any
`pv_move` equals its key under `pv_move = None`, and a PV move that is not
the TT move gets its ordinary (capture/killer/drop/history) key. -/
theorem claim_C2_code_eval (ctx : SortCtx) (pv_move tt_move : Option Move) (m : Move) :
    sortKey ctx pv_move tt_move m = sortKey ctx none tt_move m := rfl

/-- A trivial SEE context (empty board, every attack set empty): a concrete
instance of the external chess library oracle. -/
def seeCtx0 : SeeCtx :=
  { byRole := fun _ => ∅, byColor := fun _ => ∅, occupied := ∅, attacksTo := fun _ _ _ => ∅,
    bishopAttacks := fun _ _ => ∅, rookAttacks := fun _ _ => ∅, turn := .white }

/-- All-zero history tables. -/
def hist0 : HistoryTables := { main := fun _ _ _ => 0, capture := fun _ _ _ => 0 }

/-- A concrete sorting context: no killer, zero history. -/
def sortCtx0 : SortCtx :=
  { seeCtx := seeCtx0, turn := .white, killer := none, history := hist0, ordering_main := 1 }

/-- A concrete quiet knight move b1-c3. -/
def mvA : Move := .normal .knight 1 none 18 none

/-- A concrete quiet knight move g1-f3. -/
def mvB : Move := .normal .knight 6 none 21 none

/-- Claim C3, counterexample to stability: the two quiet moves `mvA`, `mvB`
get equal keys (0), yet `sort_moves` emits them in REVERSED input order —
`sort_by_key` is stable ascending, and the subsequent `reverse()` flips
every tie. -/
theorem claim_C3_counterexample :
    sortKey sortCtx0 none none mvA = sortKey sortCtx0 none none mvB ∧
    mvA ≠ mvB ∧
    sort_moves sortCtx0 none none [mvA, mvB] = [mvB, mvA] ∧
    sort_moves sortCtx0 none none [mvA, mvB] ≠ [mvA, mvB] := by
  refine ⟨rfl, by decide, rfl, by decide⟩

/-- Claim C3 as amended: `sort_moves` sorts descending by the assigned key
(every move precedes any move of strictly smaller key) and permutes the
input, but ties are ANTI-stable: within each key class the output is the
reverse of the input order (the source sorts ascending stably and then
reverses the whole list). -/
theorem claim_C3_amended (ctx : SortCtx) (pv_move tt_move : Option Move) (l : List Move) :
    (sort_moves ctx pv_move tt_move l).Pairwise
      (fun a b => sortKey ctx pv_move tt_move b ≤ sortKey ctx pv_move tt_move a) ∧
    List.Perm (sort_moves ctx pv_move tt_move l) l ∧
    ∀ k : Int,
      (sort_moves ctx pv_move tt_move l).filter (fun m => sortKey ctx pv_move tt_move m == k) =
        (l.filter (fun m => sortKey ctx pv_move tt_move m == k)).reverse := by
  unfold sort_moves
  refine ⟨?_, ?_, ?_⟩
  · rw [List.pairwise_reverse]
    exact pairwise_sortByKey (sortKey ctx pv_move tt_move) l
  · exact (List.reverse_perm _).trans (perm_sortByKey _ l)
  · intro k
    rw [List.filter_reverse, filter_sortByKey]

/-- Claim C7, counterexample to the claimed form: there is no threshold
`T*` with `see = Some(true)` iff `T ≤ T*` for a `Put` move, since `see`
returns `Some(true)` for EVERY threshold on drops (and likewise on
promotions and castles). -/
theorem claim_C7_counterexample :
    ¬∃ T : Int, ∀ t : Int, see seeCtx0 (Move.put Role.pawn 0) t = some true ↔ t ≤ T := by
  rintro ⟨T, hT⟩
  have h1 : see seeCtx0 (Move.put Role.pawn 0) (T + 1) = some true := rfl
  have h2 := (hT (T + 1)).mp h1
  omega

/-- Claim C7 as amended: SEE is antitone in the threshold — for thresholds
`t1 ≤ t2`, `see(pos, m, t2) = Some(true)` implies
`see(pos, m, t1) = Some(true)` (this is the claim's own equivalent
implication form; a finite `T*` with "true iff `T ≤ T*`" exists exactly
when `see` is not constantly true, i.e. for non-drop, non-promotion,
non-castle moves). -/
theorem claim_C7_amended (ctx : SeeCtx) (mv : Move) (t1 t2 : Int) (h12 : t1 ≤ t2)
    (h : see ctx mv t2 = some true) : see ctx mv t1 = some true := by
  simp only [see] at h ⊢
  by_cases hput : mv.isPut = true
  · rw [if_pos hput]
  · rw [if_neg hput] at h ⊢
    by_cases hpc : (mv.is_promotion || mv.is_castle) = true
    · rw [if_pos hpc]
    · rw [if_neg hpc] at h ⊢
      by_cases hb0 : moveValue mv - t2 < 0
      · rw [if_pos hb0] at h
        simp at h
      · rw [if_neg hb0] at h
        have hb0' : ¬(moveValue mv - t1 < 0) := by omega
        rw [if_neg hb0']
        by_cases hb1' : (0 : Int) ≤ moveValue mv - t1 - seeValue mv.role
        · rw [if_pos hb1']
        · rw [if_neg hb1']
          have hb1 : ¬((0 : Int) ≤ moveValue mv - t2 - seeValue mv.role) := by omega
          rw [if_neg hb1] at h
          rcases hf : mv.fromSq with _ | f
          · rw [hf] at h
            exact Option.noConfusion h
          · rw [hf] at h
            simp only [Option.some.injEq] at h ⊢
            have hb2 :
                moveValue mv - t2 - seeValue mv.role ≤ moveValue mv - t1 - seeValue mv.role := by
              omega
            exact (seeLoop_mono ctx mv.toSq _ _ _ _ _ _ hb2).1 (Color.other_ne ctx.turn) h

/-- Witness for the amended claim C7 at a concrete input. -/
theorem claim_C7_witness : see seeCtx0 (Move.put Role.pawn 0) 0 = some true :=
  claim_C7_amended seeCtx0 (Move.put Role.pawn 0) 0 1 (by decide) (by rfl)

/-- Claim C8: `make_move::<false>(m)` followed by `undo_move()` restores
the board exactly — position, hash, repetition history, ply counter (and
the whole `Board` record, the accumulator stack included) — for every
oracle, board and move. -/
theorem claim_C8_make_undo {P : Type} (o : Oracle P) (b : Board P) (mv : Move) :
    Board.undo_move (Board.make_move o false mv b) = some b := by
  have hstack :
      (NNUE.commit (applyMoveFeatures o b.pos (o.turn b.pos) mv b.nnue.push)).stack =
        b.nnue.top :: b.nnue.stack :=
    applyMoveFeatures_stack o b.pos (o.turn b.pos) mv b.nnue.push
  have hpop := NNUE.pop_of_stack _ _ _ hstack
  calc
    Board.undo_move (Board.make_move o false mv b) =
        some
          { pos := b.pos,
            nnue := (NNUE.commit (applyMoveFeatures o b.pos (o.turn b.pos) mv b.nnue.push)).pop,
            state_stack := b.state_stack, move_stack := b.move_stack, history := b.history,
            ply := b.ply, eval_stack := b.eval_stack } :=
      rfl
    _ = some b := by rw [hpop]

/-- Claim C9: `evaluate()` is strictly between `-MATE_BOUND` and
`MATE_BOUND` for every board state and every raw network output (the
clamp into `[-MATE_BOUND + 1, MATE_BOUND - 1]`). -/
theorem claim_C9_evaluate_bounds {P : Type} (o : Oracle P) (b : Board P) :
    -Score.MATE_BOUND < Board.evaluate o b ∧ Board.evaluate o b < Score.MATE_BOUND := by
  unfold Board.evaluate Score.MATE_BOUND Score.MATE MAX_PLY
  omega

/-- Claim C5: a non-root node whose hash occurs at least twice in the
board's hash history returns `DRAW` (0) immediately, for every depth and
every window, provided the 2048-node time check does not fire. -/
theorem claim_C5_threefold_draw {P : Type} (C : SearchCtx P) (fuel : Nat) (s : SearchState P)
    (depth alpha beta : Int) (hroot : s.info.ply ≠ 0)
    (htime : ¬(s.info.nodes % 2048 = 0 ∧ C.search_params.search_time < s.info.elapsed))
    (hrep : Board.three_fold C.oracle s.board = true) :
    (alphaBeta C (fuel + 1) s depth alpha beta).1 = Score.DRAW := by
  simp only [alphaBeta, clearPvRow_board, clearPvRow_info_nodes, clearPvRow_info_elapsed,
    clearPvRow_info_ply]
  rw [if_neg htime, if_pos (⟨hroot, hrep⟩ : _ ∧ _)]

/-- A concrete oracle over the unit position type: no legal moves, never in
check, white to move, constant hash 5, network output 48. -/
def oracle0 : Oracle Unit :=
  { legal_moves := fun _ => [], capture_moves := fun _ => [], is_check := fun _ => false,
    turn := fun _ => .white, play_unchecked := fun _ _ => (), swap_turn := fun _ => none,
    zobrist := fun _ => 5, role_at := fun _ _ => none, seeC := fun _ => seeCtx0,
    nnue_eval := fun _ _ => 48 }

/-- Concrete tunables (arbitrary small values). -/
def params0 : Params :=
  { iir_depth := 4, rfp_depth := 7, rfp_margin := 60, razoring_depth := 3,
    razoring_margin := 200, razoring_fixed_margin := 130, fp_depth := 6, fp_margin := 100,
    fp_fixed_margin := 150, see_depth := 7, see_quiet_margin := 60, see_noisy_margin := 25,
    ordering_main := 1, lmr_moves_played := 3, lmr_depth := 3, max_history := 8192,
    history_cap := 1200 }

/-- A concrete board over the unit position: the hash 5 occurs twice in the
history, so `three_fold` holds. -/
def board0 : Board Unit :=
  { pos := (), nnue := ⟨⟨[]⟩, []⟩, state_stack := [], move_stack := [], history := [5, 5],
    ply := 0, eval_stack := fun _ => 0 }

/-- Concrete search info at ply 1 with one node counted. -/
def info0 : SearchInfo :=
  { nodes := 1, sel_depth := 0, ply := 1, pv := fun _ _ => none, pv_length := fun _ => 0,
    killers := fun _ => none, history := hist0, terminated := false, elapsed := 0 }

/-- An empty one-slot transposition table. -/
def tt0 : TranspositionTable := { capacity := 1, slots := [] }

/-- The concrete search context over the unit position type. -/
def ctxU : SearchCtx Unit :=
  { oracle := oracle0, params := params0, search_params := { depth := 3, search_time := 1000 } }

/-- The concrete non-root state with a repeated hash. -/
def stateC5 : SearchState Unit := { board := board0, info := info0, tt := tt0 }

/-- Witness for claim C5 at a concrete repeated-hash state. -/
theorem claim_C5_witness :
    (alphaBeta ctxU 1 stateC5 3 (-Score.INFINITY) Score.INFINITY).1 = Score.DRAW :=
  claim_C5_threefold_draw ctxU 0 stateC5 3 (-Score.INFINITY) Score.INFINITY (by decide)
    (by decide) (by decide)

/-- Claim C6: when the position has no legal move and none of the earlier
preamble returns fires (time check, non-root draw and mate-distance
returns, max-ply stand-pat, depth ≤ 0 qsearch hand-off, TT cutoff,
reverse-futility, razoring and null-move guards), `alpha_beta` returns
`mated_in(ply)` in check and `DRAW` otherwise; in particular, a root
search of a stalemate position returns 0. -/
theorem claim_C6_no_legal_moves {P : Type} (C : SearchCtx P) (fuel : Nat) (s : SearchState P)
    (depth alpha beta : Int) (alpha1 beta1 depth1 depth2 depth3 eval : Int)
    (tt_move : Option Move)
    (halpha1 :
      alpha1 = if s.info.ply = 0 then alpha else max alpha (-Score.MATE + (s.info.ply : Int)))
    (hbeta1 :
      beta1 = if s.info.ply = 0 then beta else min beta (Score.MATE - (s.info.ply : Int) - 1))
    (hdepth1 : depth1 = max depth 0)
    (htt_move :
      tt_move =
        (s.tt.read (Board.get_hash C.oracle s.board) s.info.ply).bind fun e => e.m)
    (hdepth2 :
      depth2 =
        if s.info.ply ≠ 0 ∧ tt_move = none ∧ C.params.iir_depth ≤ depth1 then depth1 - 1
        else depth1)
    (hdepth3 : depth3 = if Board.in_check C.oracle s.board then depth2 + 1 else depth2)
    (heval : eval = Board.evaluate C.oracle s.board)
    (htime : ¬(s.info.nodes % 2048 = 0 ∧ C.search_params.search_time < s.info.elapsed))
    (hrep : s.info.ply ≠ 0 → Board.three_fold C.oracle s.board = false)
    (hmdp : s.info.ply ≠ 0 → ¬(beta1 ≤ alpha1))
    (hmaxply : s.info.ply < MAX_PLY - 1)
    (hqs : ¬(depth ≤ 0 ∧ Board.in_check C.oracle s.board = false))
    (htt : ∀ e, s.tt.read (Board.get_hash C.oracle s.board) s.info.ply = some e →
      (1 < beta - alpha) ∨ e.valid_cutoff alpha1 beta1 depth1 = false)
    (hrfp : Board.in_check C.oracle s.board = false → ¬(1 < beta - alpha) → s.info.ply ≠ 0 →
      ¬(depth3 < C.params.rfp_depth ∧ beta1 < eval - C.params.rfp_margin * depth3))
    (hrazor : Board.in_check C.oracle s.board = false → ¬(1 < beta - alpha) → s.info.ply ≠ 0 →
      ¬(depth3 ≤ C.params.razoring_depth ∧
        eval + C.params.razoring_margin * depth3 + C.params.razoring_fixed_margin ≤ alpha1))
    (hnmp : Board.in_check C.oracle s.board = false → ¬(1 < beta - alpha) → s.info.ply ≠ 0 →
      ¬(Board.is_last_move_null s.board = false ∧ 4 ≤ depth3 ∧ beta1 < eval))
    (hmoves : C.oracle.legal_moves s.board.pos = []) :
    (alphaBeta C (fuel + 1) s depth alpha beta).1 =
      if Board.in_check C.oracle s.board then Score.mated_in s.info.ply else Score.DRAW := by
  subst halpha1 hbeta1 hdepth1 htt_move hdepth2 hdepth3 heval
  simp only [alphaBeta, clearPvRow_board, clearPvRow_tt, clearPvRow_info_nodes,
    clearPvRow_info_elapsed, clearPvRow_info_ply, clearPvRow_info_sel_depth,
    clearPvRow_info_killers, clearPvRow_info_history, clearPvRow_info_pv_length,
    bookkeep_board, bookkeep_tt, bookkeep_info_ply, bookkeep_info_killers,
    bookkeep_info_history]
  rw [if_neg htime]
  rw [if_neg (show ¬(s.info.ply ≠ 0 ∧ Board.three_fold C.oracle s.board = true) by
    rintro ⟨h1, h2⟩
    rw [hrep h1] at h2
    exact Bool.false_ne_true h2)]
  rw [if_neg (show ¬(s.info.ply ≠ 0 ∧
      (if s.info.ply = 0 then beta else min beta (Score.MATE - (s.info.ply : Int) - 1)) ≤
        (if s.info.ply = 0 then alpha else max alpha (-Score.MATE + (s.info.ply : Int)))) by
    rintro ⟨h1, h2⟩
    exact hmdp h1 h2)]
  rw [if_neg (Nat.not_le.mpr hmaxply)]
  rw [if_neg hqs]
  split
  next sc heq =>
    exfalso
    rcases hread : s.tt.read (Board.get_hash C.oracle s.board) s.info.ply with _ | e
    · rw [hread] at heq
      simp only [Option.none_bind] at heq
      exact Option.noConfusion heq
    · rw [hread] at heq
      simp only [Option.some_bind] at heq
      rcases htt e hread with hpv | hvc
      · rw [if_neg (fun hc => hc.1 hpv)] at heq
        exact Option.noConfusion heq
      · have hneg : ¬(¬(1 < beta - alpha) ∧
            e.valid_cutoff
                (if s.info.ply = 0 then alpha else max alpha (-Score.MATE + (s.info.ply : Int)))
                (if s.info.ply = 0 then beta else min beta (Score.MATE - (s.info.ply : Int) - 1))
                (max depth 0) =
              true) := by
          rintro ⟨-, hvalid⟩
          rw [hvc] at hvalid
          exact Bool.false_ne_true hvalid
        rw [if_neg hneg] at heq
        exact Option.noConfusion heq
  next heq =>
    rw [alphaBetaPrune_no_fire (bookkeep (clearPvRow s s.info.ply) s.info.ply)
      (fun hic hpv hply => ⟨hrfp hic hpv hply, hrazor hic hpv hply, hnmp hic hpv hply⟩)]
    refine Eq.trans (congrArg Prod.fst (alphaBetaMoves_no_moves ?_)) rfl
    exact hmoves

/-- The concrete root state: ply 0, no legal moves, not in check. -/
def stateRoot : SearchState Unit :=
  { board := board0,
    info :=
      { nodes := 1, sel_depth := 0, ply := 0, pv := fun _ _ => none, pv_length := fun _ => 0,
        killers := fun _ => none, history := hist0, terminated := false, elapsed := 0 },
    tt := tt0 }

/-- Witness for claim C6: a concrete root "stalemate" state (no legal
moves, not in check) searched at depth 1 returns `DRAW`. -/
theorem claim_C6_witness :
    (alphaBeta ctxU 1 stateRoot 1 (-Score.INFINITY) Score.INFINITY).1 =
      if Board.in_check ctxU.oracle stateRoot.board then Score.mated_in stateRoot.info.ply
      else Score.DRAW :=
  claim_C6_no_legal_moves ctxU 0 stateRoot 1 (-Score.INFINITY) Score.INFINITY
    (-Score.INFINITY) Score.INFINITY 1 1 1 48 none (by decide) (by decide) (by decide)
    (by rfl) (by decide) (by decide) (by rfl) (by decide) (by decide) (by decide) (by decide)
    (by decide) (by intro e h; exact Option.noConfusion h) (by decide) (by decide) (by decide)
    (by decide)

/-- Claim C4: the claim says `alpha_beta` records the static evaluation
into the eval stack (`eval_stack[ply] = eval`).  The code disagrees:
`alpha_beta` computes `let eval = refs.board.evaluate();` (line 75) but
never calls `set_eval`, so after a full call at ply 0 on a position whose
static evaluation is 48 the eval stack still holds its initial 0 at every
index — the improving heuristic would read a stale value. -/
theorem claim_C4_code_eval :
    (alphaBeta ctxU 1 stateRoot 1 (-Score.INFINITY) Score.INFINITY).2.board.eval_stack 0 = 0 ∧
    Board.evaluate ctxU.oracle stateRoot.board = 48 ∧ (0 : Int) ≠ 48 := by
  refine ⟨rfl, rfl, by decide⟩

/-- Claim C10: `see` never returns `None`: the single fallible step
`mv.from()?` is reached only past the `Put` early return, and every other
variant has a from-square. -/
theorem claim_C10_see_isSome (ctx : SeeCtx) (mv : Move) (t : Int) :
    (see ctx mv t).isSome = true := by
  cases mv <;>
    simp only [see, Move.isPut, Move.is_promotion, Move.is_castle, Move.fromSq] <;>
    split_ifs <;> simp

end Hivemind
